import Mathlib

/-!
Verification of the image-crawler program `src/作业2/homework2.py`.

Strings of the Python program are modelled as `List Char`; Python string
operations used by the program (`re.sub` over a character class, `strip`,
slicing, `startswith`, `in`, `lower`, `split`, `join`) are embedded as
executable functions on `List Char`.  The pieces of the Python standard
library the program calls (`urllib.parse.urlsplit` / `urljoin`,
`os.path.basename`) are embedded following CPython's documented behaviour,
restricted to URLs without `;`-parameters, which the program never
manipulates.  Network, filesystem and HTML parsing are external
collaborators and are modelled as oracles: a page fetch is a function from
a page index to an optional parsed document, a parsed document is the list
of its `<img>` elements in document order, and download outcomes are given
by an explicit outcome record.
-/

set_option maxRecDepth 8000

namespace Homework2

/-- Strings of the Python program, modelled as lists of characters. -/
abbrev Str := List Char

/-- Character-wise lower-casing, modelling Python `str.lower` on the
ASCII strings the program manipulates. -/
def lowerStr (s : Str) : Str := s.map Char.toLower

/-- Python `needle in haystack` on strings: `true` iff `needle` occurs as a
contiguous substring of `haystack`. -/
def isSubstrOf (needle haystack : Str) : Bool :=
  haystack.tails.any (fun t => needle.isPrefixOf t)

/-- Python `s.strip(chars)`: drop from both ends every character satisfying
`p`. -/
def pyStrip (p : Char → Bool) (s : Str) : Str :=
  ((s.dropWhile p).reverse.dropWhile p).reverse

/-- The characters replaced by `_` in `sanitize_filename`
(the regular expression class `[<>:"/\\|?*]` at homework2.py:127). -/
def isIllegalChar (c : Char) : Bool :=
  c = '<' || c = '>' || c = ':' || c = '"' || c = '/' || c = '\\' ||
  c = '|' || c = '?' || c = '*'

/-- A character stripped by `filename.strip('. ')` at homework2.py:128. -/
def isDotSpace (c : Char) : Bool := c = '.' || c = ' '

/-- Embedding of `sanitize_filename` (homework2.py:125-131): replace each
illegal character with `_`, strip leading and trailing periods and spaces,
substitute `"unnamed"` for an empty result, then truncate to 200
characters. -/
def sanitize_filename (filename : Str) : Str :=
  let f1 := filename.map (fun c => if isIllegalChar c then '_' else c)
  let f2 := pyStrip isDotSpace f1
  let f3 := if f2 = [] then [ 'u', 'n', 'n', 'a', 'm', 'e', 'd' ] else f2
  f3.take 200

lemma pyStrip_eq_rdropWhile (p : Char → Bool) (s : Str) :
    pyStrip p s = List.rdropWhile p (s.dropWhile p) := rfl

lemma mem_pyStrip {p : Char → Bool} {s : Str} {c : Char} (h : c ∈ pyStrip p s) :
    c ∈ s := by
  rw [pyStrip_eq_rdropWhile] at h
  exact (List.dropWhile_suffix p).sublist.subset
    ((List.rdropWhile_prefix p (s.dropWhile p)).sublist.subset h)

lemma pyStrip_length_le (p : Char → Bool) (s : Str) :
    (pyStrip p s).length ≤ s.length := by
  rw [pyStrip_eq_rdropWhile]
  exact le_trans (List.rdropWhile_prefix p (s.dropWhile p)).sublist.length_le
    (List.dropWhile_suffix p).sublist.length_le

lemma dropWhile_pyStrip (p : Char → Bool) (s : Str) :
    (pyStrip p s).dropWhile p = pyStrip p s := by
  rw [pyStrip_eq_rdropWhile]
  rcases ht : List.rdropWhile p (s.dropWhile p) with _ | ⟨a, t⟩
  · rfl
  · obtain ⟨r, hr⟩ := ht ▸ List.rdropWhile_prefix p (s.dropWhile p)
    have hu : (s.dropWhile p).dropWhile p = s.dropWhile p :=
      List.dropWhile_idempotent p s
    rw [List.dropWhile_eq_self_iff] at hu
    have hu2 : ∀ (hl : 0 < ((a :: t ++ r) : List Char).length),
        ¬p ((a :: t ++ r).get ⟨0, hl⟩) = true := by
      rw [hr]; exact hu
    have hpa : ¬p a = true := by simpa using hu2 (by simp)
    simp [List.dropWhile_cons, hpa]

lemma pyStrip_idem (p : Char → Bool) (s : Str) :
    pyStrip p (pyStrip p s) = pyStrip p s := by
  rw [pyStrip_eq_rdropWhile p (pyStrip p s), dropWhile_pyStrip,
    pyStrip_eq_rdropWhile, List.rdropWhile_idempotent]

lemma mem_sanitize {x : Str} {c : Char} (h : c ∈ sanitize_filename x) :
    isIllegalChar c = false := by
  unfold sanitize_filename at h
  simp only at h
  have h2 := List.take_subset 200 _ h
  by_cases he : pyStrip isDotSpace
      (x.map (fun c => if isIllegalChar c then '_' else c)) = []
  · rw [if_pos he] at h2
    fin_cases h2 <;> rfl
  · rw [if_neg he] at h2
    have h3 := mem_pyStrip h2
    obtain ⟨d, _, hd⟩ := List.mem_map.mp h3
    by_cases hid : isIllegalChar d
    · rw [if_pos hid] at hd; rw [← hd]; rfl
    · rw [if_neg hid] at hd; rw [← hd]; exact Bool.of_not_eq_true hid

lemma sanitize_length_le (x : Str) : (sanitize_filename x).length ≤ 200 := by
  unfold sanitize_filename
  simp only
  exact le_trans (List.length_take_le 200 _) (le_refl 200)

lemma sanitize_ne_nil (x : Str) : sanitize_filename x ≠ [] := by
  unfold sanitize_filename
  simp only
  intro h
  rw [List.take_eq_nil_iff] at h
  rcases h with h | h
  · exact absurd h (by decide)
  · by_cases he : pyStrip isDotSpace
        (x.map (fun c => if isIllegalChar c then '_' else c)) = []
    · rw [if_pos he] at h; exact absurd h (by decide)
    · rw [if_neg he] at h; exact he h

lemma sanitize_idem_of_short {x : Str} (hx : x.length ≤ 200) :
    sanitize_filename (sanitize_filename x) = sanitize_filename x := by
  have hf1len : (x.map (fun c => if isIllegalChar c then '_' else c)).length
      ≤ 200 := by rwa [List.length_map]
  set f2 := pyStrip isDotSpace
    (x.map (fun c => if isIllegalChar c then '_' else c)) with hf2
  have hf2len : f2.length ≤ 200 := le_trans (pyStrip_length_le _ _) hf1len
  set f3 : Str := if f2 = [] then [ 'u', 'n', 'n', 'a', 'm', 'e', 'd' ]
    else f2 with hf3
  have hf3len : f3.length ≤ 200 := by
    rw [hf3]; by_cases he : f2 = []
    · rw [if_pos he]; decide
    · rw [if_neg he]; exact hf2len
  have hsan : sanitize_filename x = f3 := by
    show f3.take 200 = f3
    exact List.take_of_length_le hf3len
  have hnoi : ∀ c ∈ f3, isIllegalChar c = false := by
    intro c hc
    exact mem_sanitize (hsan.symm ▸ hc)
  have hmap : f3.map (fun c => if isIllegalChar c then '_' else c) = f3 := by
    have h1 : f3.map (fun c => if isIllegalChar c then '_' else c) = f3.map id :=
      List.map_congr_left (fun c hc => by simp [hnoi c hc])
    rw [h1, List.map_id]
  have hstrip : pyStrip isDotSpace f3 = f3 := by
    rw [hf3]; by_cases he : f2 = []
    · rw [if_pos he]; decide
    · rw [if_neg he]; exact pyStrip_idem _ _
  have hne : f3 ≠ [] := by
    rw [hf3]; by_cases he : f2 = []
    · rw [if_pos he]; decide
    · rw [if_neg he]; exact he
  rw [hsan]
  show (if pyStrip isDotSpace
      (f3.map (fun c => if isIllegalChar c then '_' else c)) = []
    then ([ 'u', 'n', 'n', 'a', 'm', 'e', 'd' ] : Str)
    else pyStrip isDotSpace
      (f3.map (fun c => if isIllegalChar c then '_' else c))).take 200 = f3
  rw [hmap, hstrip, if_neg hne]
  exact List.take_of_length_le hf3len

/-- Claim C2, counterexample: `sanitize_filename` is not idempotent.  On the
201-character input consisting of 199 `a`s followed by `.b`, the first
application truncates to 199 `a`s followed by a trailing period (the strip
step runs before truncation, so the truncated result may end in a period),
and the second application strips that period. -/
theorem C2_counterexample :
    sanitize_filename (sanitize_filename (List.replicate 199 'a' ++ [ '.', 'b' ]))
      ≠ sanitize_filename (List.replicate 199 'a' ++ [ '.', 'b' ]) := by
  decide

/-- Claim C2, amended: for every string `x` the output of
`sanitize_filename` contains none of the nine filtered characters, has
length at most 200 and is non-empty; and `sanitize_filename` is idempotent
on every input of length at most 200 (truncation to 200 characters can
re-expose a trailing period or space on longer inputs, which a second
application strips). -/
theorem C2_sanitize_props (x : Str) :
    ((∀ c ∈ sanitize_filename x, isIllegalChar c = false) ∧
      (sanitize_filename x).length ≤ 200 ∧ sanitize_filename x ≠ []) ∧
    (x.length ≤ 200 →
      sanitize_filename (sanitize_filename x) = sanitize_filename x) :=
  ⟨⟨fun _ hc => mem_sanitize hc, sanitize_length_le x, sanitize_ne_nil x⟩,
    fun hx => sanitize_idem_of_short hx⟩

/-- Witness for C2: the amended theorem instantiated at the concrete input
`"img<1>.jpg"`, whose length is at most 200. -/
theorem C2_sanitize_props_witness :
    sanitize_filename (sanitize_filename
        [ 'i', 'm', 'g', '<', '1', '>', '.', 'j', 'p', 'g' ])
      = sanitize_filename [ 'i', 'm', 'g', '<', '1', '>', '.', 'j', 'p', 'g' ] :=
  (C2_sanitize_props [ 'i', 'm', 'g', '<', '1', '>', '.', 'j', 'p', 'g' ]).2
    (by decide)

/-! ### URL parsing and joining

Embedding of the parts of `urllib.parse` used by the program
(`urlparse(...).path` for basenames, `urljoin` for relative-URL
resolution) and of `os.path.basename`, following CPython's implementation.
The `;`-parameter split of `urlparse` is omitted: the program's URLs and
every input of the theorems below are parameter-free. -/

/-- Split a list at the first occurrence of character `c`; `none` when `c`
does not occur (Python `str.find` plus slicing). -/
def splitAtChar (c : Char) : Str → Option (Str × Str)
  | [] => none
  | x :: xs =>
    if x = c then some ([], xs)
    else (splitAtChar c xs).map (fun pr => (x :: pr.1, pr.2))

/-- Python `str.split(sep)` for a one-character separator: always returns a
non-empty list of (possibly empty) fields. -/
def splitOnChar (c : Char) : Str → List Str
  | [] => [ [] ]
  | x :: xs =>
    match splitOnChar c xs with
    | [] => [ [] ]
    | h :: t => if x = c then [] :: h :: t else (x :: h) :: t

/-- Python `'/'.join(segments)`. -/
def joinSlash (segs : List Str) : Str := List.intercalate [ '/' ] segs

/-- A character allowed inside a URL scheme (letters, digits, `+`, `-`,
`.`), as in CPython `urllib.parse`. -/
def isSchemeChar (c : Char) : Bool :=
  c.isAlphanum || c = '+' || c = '-' || c = '.'

/-- CPython scheme detection: split the URL at the first `:` when the part
before it is a non-empty ASCII-letter-initial run of scheme characters;
the scheme is returned lower-cased. -/
def splitScheme (u : Str) : Option (Str × Str) :=
  match splitAtChar ':' u with
  | none => none
  | some (pre, post) =>
    match pre with
    | [] => none
    | c :: cs =>
      if (c.isAlpha && c.toNat < 128) && cs.all isSchemeChar then
        some (lowerStr (c :: cs), post)
      else none

/-- A character that does not terminate the network-location part of a URL
(CPython stops the netloc at `/`, `?` or `#`). -/
def isNetlocChar (c : Char) : Bool := !(c = '/' || c = '?' || c = '#')

/-- The five components of CPython `urlsplit` (empty string plays the role
of an absent component, as in `urllib.parse.SplitResult`). -/
structure UrlParts where
  scheme : Str
  netloc : Str
  path : Str
  query : Str
  fragment : Str
deriving DecidableEq

/-- Embedding of CPython `urllib.parse.urlsplit`: scheme, then `//`-netloc
up to `/`, `?` or `#`, then the fragment after the first `#`, then the
query after the first `?`. -/
def urlsplit (u : Str) : UrlParts :=
  let sp := match splitScheme u with
    | some pr => pr
    | none => ([], u)
  let np := if [ '/', '/' ].isPrefixOf sp.2 then
      ((sp.2.drop 2).takeWhile isNetlocChar, (sp.2.drop 2).dropWhile isNetlocChar)
    else ([], sp.2)
  let fp := match splitAtChar '#' np.2 with
    | some pr => pr
    | none => (np.2, [])
  let qp := match splitAtChar '?' fp.1 with
    | some pr => pr
    | none => (fp.1, [])
  ⟨sp.1, np.1, qp.1, qp.2, fp.2⟩

/-- Embedding of CPython `urllib.parse.urlunsplit`. -/
def urlunsplit (p : UrlParts) : Str :=
  let u1 := if p.netloc ≠ [] || [ '/', '/' ].isPrefixOf p.path then
      [ '/', '/' ] ++ p.netloc ++
        (if p.path ≠ [] && !([ '/' ].isPrefixOf p.path) then '/' :: p.path
          else p.path)
    else p.path
  let u2 := if p.scheme ≠ [] then p.scheme ++ ':' :: u1 else u1
  let u3 := if p.query ≠ [] then u2 ++ '?' :: p.query else u2
  if p.fragment ≠ [] then u3 ++ '#' :: p.fragment else u3

/-- CPython `urljoin`: the base path split on `/` with a trailing non-empty
segment removed. -/
def baseSegs (bpath : Str) : List Str :=
  let ps := splitOnChar '/' bpath
  if ps.getLast? ≠ some [] then ps.dropLast else ps

/-- CPython `urljoin`: `segments[1:-1] = filter(None, segments[1:-1])` —
drop empty segments other than the first and the last. -/
def filterMid : List Str → List Str
  | [] => []
  | [x] => [x]
  | x :: xs => x :: (xs.dropLast.filter (fun s => s ≠ [])) ++ xs.drop (xs.length - 1)

/-- CPython `urljoin`: resolve `.` and `..` segments; a trailing dot
segment leaves a trailing slash. -/
def resolveDots (segs : List Str) : Str :=
  let step := fun (acc : List Str) (seg : Str) =>
    if seg = [ '.', '.' ] then acc.dropLast
    else if seg = [ '.' ] then acc
    else acc ++ [seg]
  let r := segs.foldl step []
  let r2 := if segs.getLast? = some [ '.' ] || segs.getLast? = some [ '.', '.' ]
    then r ++ [ [] ] else r
  if joinSlash r2 = [] then [ '/' ] else joinSlash r2

/-- Embedding of CPython `urllib.parse.urljoin` for the schemes the program
meets (`http`/`https`/none, all in CPython's `uses_relative` and
`uses_netloc` lists). -/
def urljoin (base url : Str) : Str :=
  if base = [] then url
  else if url = [] then base
  else
    let b := urlsplit base
    let r := urlsplit url
    let scheme := if r.scheme = [] then b.scheme else r.scheme
    if scheme ≠ b.scheme then url
    else if r.netloc ≠ [] then
      urlunsplit ⟨scheme, r.netloc, r.path, r.query, r.fragment⟩
    else if r.path = [] then
      urlunsplit ⟨scheme, b.netloc, b.path,
        (if r.query = [] then b.query else r.query), r.fragment⟩
    else
      let segments := if [ '/' ].isPrefixOf r.path then splitOnChar '/' r.path
        else filterMid (baseSegs b.path ++ splitOnChar '/' r.path)
      urlunsplit ⟨scheme, b.netloc, resolveDots segments, r.query, r.fragment⟩

/-- Embedding of `os.path.basename` (POSIX): the part after the last `/`. -/
def basename (p : Str) : Str := (p.reverse.takeWhile (fun c => c ≠ '/')).reverse

/-! ### Image extraction

`extract_image_urls` (homework2.py:40-103) walks the page's `<img>`
elements in document order.  A parsed page is modelled as the list of its
image elements; each element carries the attributes the function reads and
the visible text of its nearest enclosing `<a>`-or-`<div>` parent (an
absent parent is `none`), standing in for BeautifulSoup. -/

/-- An `<img>` element as seen by `extract_image_urls`: the three source
attributes, the two title attributes, and the stripped visible text of the
nearest enclosing anchor-or-div parent (`none` when there is no such
parent). -/
structure ImgTag where
  dataOriginal : Option Str
  dataSrc : Option Str
  src : Option Str
  alt : Option Str
  titleAttr : Option Str
  parentText : Option Str
deriving DecidableEq

/-- One extracted record: url, title, filename (homework2.py:97-101). -/
structure ImageRec where
  url : Str
  title : Str
  filename : Str
deriving DecidableEq

/-- Python truthiness of `img_tag.get(attr)`: a present, non-empty value. -/
def truthyAttr (o : Option Str) : Option Str :=
  match o with
  | some s => if s = [] then none else some s
  | none => none

/-- Source-attribute priority (homework2.py:50-63): `data-original`, then
`data-src`, then `src`; `none` when all are absent or empty. -/
def rawPick (t : ImgTag) : Option Str :=
  match truthyAttr t.dataOriginal with
  | some s => some s
  | none =>
    match truthyAttr t.dataSrc with
    | some s => some s
    | none => truthyAttr t.src

/-- The blocklist of homework2.py:66. -/
def blockWords : List Str :=
  [ [ 'l', 'o', 'g', 'o' ], [ 'i', 'c', 'o', 'n' ],
    [ 'a', 'v', 'a', 't', 'a', 'r' ], [ 'b', 'a', 'n', 'n', 'e', 'r' ] ]

/-- `any(skip in img_url.lower() for skip in [...])` (homework2.py:66). -/
def hitsBlocklist (u : Str) : Bool :=
  blockWords.any (fun w => isSubstrOf w (lowerStr u))

/-- URL normalization (homework2.py:69-75): `//…` gets an `https:` prefix;
`/…` and strings not starting with `http` are joined to the base URL;
anything else — any string starting with `http` — passes through
unchanged. -/
def resolveUrl (base raw : Str) : Str :=
  if [ '/', '/' ].isPrefixOf raw then [ 'h', 't', 't', 'p', 's', ':' ] ++ raw
  else if [ '/' ].isPrefixOf raw then urljoin base raw
  else if !([ 'h', 't', 't', 'p' ].isPrefixOf raw) then urljoin base raw
  else raw

/-- A whitespace character for Python `str.strip()`. -/
def isPySpace (c : Char) : Bool :=
  c = ' ' || c = '\t' || c = '\n' || c = '\r' || c = '\x0b' || c = '\x0c'

/-- Python `a or b` on strings: `b` when `a` is empty. -/
def orTruthy (a b : Str) : Str := if a = [] then b else a

/-- Decimal rendering of a list length, for the `image_{n}` fallbacks. -/
def natStr (n : Nat) : Str := (Nat.repr n).data

/-- Processing of a single `<img>` element (the body of the loop at
homework2.py:48-101), appending at most one record to the accumulated
page-local list. -/
def processTag (base : Str) (acc : List ImageRec) (t : ImgTag) : List ImageRec :=
  match rawPick t with
  | none => acc
  | some raw =>
    if hitsBlocklist raw then acc
    else
      let url := resolveUrl base raw
      let title0 := pyStrip isPySpace
        (orTruthy (t.alt.getD []) (t.titleAttr.getD []))
      let title1 := if title0 = [] then
          match t.parentText with
          | some pt => if pt ≠ [] && pt.length < 100 then pt else []
          | none => []
        else title0
      let bn := basename (urlsplit url).path
      let title := if title1 = [] then
          (if bn = [] then [ 'i', 'm', 'a', 'g', 'e', '_' ] ++ natStr acc.length
            else bn)
        else title1
      let fname := if bn = [] then
          [ 'i', 'm', 'a', 'g', 'e', '_' ] ++ natStr acc.length ++
            [ '.', 'j', 'p', 'g' ]
        else bn
      acc ++ [⟨url, title, fname⟩]

/-- Embedding of `extract_image_urls` (homework2.py:40-103). -/
def extract_image_urls (tags : List ImgTag) (base : Str) : List ImageRec :=
  tags.foldl (processTag base) []

/-- An absolute, scheme-qualified http or https URL, as in the spec's
record invariant. -/
def isAbsHttpUrl (u : Str) : Bool :=
  [ 'h', 't', 't', 'p', ':', '/', '/' ].isPrefixOf u ||
  [ 'h', 't', 't', 'p', 's', ':', '/', '/' ].isPrefixOf u

/-- The `<img data-original="//cdn.example.com/a.jpg" alt="Cat">` element
of the spec's extraction scenario. -/
def catTag : ImgTag :=
  ⟨some ('/' :: '/' :: ([ 'c', 'd', 'n', '.', 'e', 'x', 'a', 'm', 'p', 'l',
      'e', '.', 'c', 'o', 'm', '/', 'a', '.', 'j', 'p', 'g' ])),
    none, none, some [ 'C', 'a', 't' ], none, none⟩

/-- Claim C6: on a page whose only image element is
`<img data-original="//cdn.example.com/a.jpg" alt="Cat">`, extraction
returns exactly the record
`(url: https://cdn.example.com/a.jpg, title: Cat, filename: a.jpg)`,
for every base URL: the `data-original` attribute wins, the
protocol-relative URL is prefixed with `https:`, the title is the `alt`
text, and the filename is the URL path's basename. -/
theorem C6_scenario (base : Str) :
    extract_image_urls [catTag] base =
      [⟨[ 'h', 't', 't', 'p', 's', ':', '/', '/' ] ++
          [ 'c', 'd', 'n', '.', 'e', 'x', 'a', 'm', 'p', 'l', 'e', '.',
            'c', 'o', 'm', '/', 'a', '.', 'j', 'p', 'g' ],
        [ 'C', 'a', 't' ],
        [ 'a', '.', 'j', 'p', 'g' ]⟩] := rfl

/-- The element `<img src="httpx.jpg">`, whose source is a relative URL
that starts with the four characters `http`. -/
def httpxTag : ImgTag :=
  ⟨none, none, some [ 'h', 't', 't', 'p', 'x', '.', 'j', 'p', 'g' ],
    none, none, none⟩

/-- Claim C3, counterexample: a record whose url is neither absolute nor
scheme-qualified survives extraction.  On `<img src="httpx.jpg">` the
`startswith("http")` test treats the relative URL `httpx.jpg` as already
absolute and passes it through unresolved, so the single extracted record
has url `httpx.jpg`. -/
theorem C3_counterexample :
    (extract_image_urls [httpxTag]
        ([ 'h', 't', 't', 'p', 's', ':', '/', '/' ] ++
          [ 'x', '.', 'y', '/', 'p', '.', 'h', 't', 'm', 'l' ])).map
      (fun r => isAbsHttpUrl r.url) = [false] := rfl

/-- The element `<img src="/a.jpg">`: its raw source contains no blocklist
word, but resolving it against a host named `logo.example.com` puts
`logo` into the absolute URL. -/
def slashATag : ImgTag :=
  ⟨none, none, some [ '/', 'a', '.', 'j', 'p', 'g' ], none, none, none⟩

/-- The base URL `https://logo.example.com/x.html`. -/
def logoBase : Str :=
  [ 'h', 't', 't', 'p', 's', ':', '/', '/' ] ++
  [ 'l', 'o', 'g', 'o', '.', 'e', 'x', 'a', 'm', 'p', 'l', 'e', '.',
    'c', 'o', 'm', '/', 'x', '.', 'h', 't', 'm', 'l' ]

/-- Claim C4, counterexample: the blocklist is checked on the raw attribute
value before URL resolution, not on the resolved absolute URL.  For
`<img src="/a.jpg">` on the page `https://logo.example.com/x.html`, the
resolved URL `https://logo.example.com/a.jpg` contains the blocklist word
`logo`, yet extraction still produces a record for the element. -/
theorem C4_counterexample :
    (extract_image_urls [slashATag] logoBase).map
      (fun r => hitsBlocklist r.url) = [true] := rfl

/-- Claim C4, amended: the blocklist test applies to the element's selected
raw source attribute (before absolute-URL resolution): whenever that raw
value, lower-cased, contains one of `logo`, `icon`, `avatar`, `banner`,
the element contributes no record, at any position in the page and for
any base URL. -/
theorem C4_blocklist (base : Str) (acc : List ImageRec) (t : ImgTag)
    (raw : Str) (hraw : rawPick t = some raw)
    (hhit : hitsBlocklist raw = true) :
    processTag base acc t = acc := by
  unfold processTag
  rw [hraw]
  simp [hhit]

/-- Witness for the amended C4: `<img src="/images/logo.png">` produces no
record (the spec's own blocklist scenario). -/
theorem C4_blocklist_witness :
    processTag logoBase []
      ⟨none, none,
        some [ '/', 'i', 'm', 'a', 'g', 'e', 's', '/', 'l', 'o', 'g', 'o',
          '.', 'p', 'n', 'g' ], none, none, none⟩ = [] :=
  C4_blocklist logoBase []
    ⟨none, none,
      some [ '/', 'i', 'm', 'a', 'g', 'e', 's', '/', 'l', 'o', 'g', 'o',
        '.', 'p', 'n', 'g' ], none, none, none⟩
    [ '/', 'i', 'm', 'a', 'g', 'e', 's', '/', 'l', 'o', 'g', 'o',
      '.', 'p', 'n', 'g' ] (by decide) (by decide)

/-! ### Absoluteness of extracted URLs (claim C3, amended) -/

lemma takeWhile_clean_append (p : Char → Bool) (a : Str) (b : Char) (t : Str)
    (ha : a.all p = true) (hb : p b = false) :
    (a ++ b :: t).takeWhile p = a := by
  induction a with
  | nil => simp [List.takeWhile_cons, hb]
  | cons x xs ih =>
    simp only [List.all_cons, Bool.and_eq_true] at ha
    simp [List.takeWhile_cons, ha.1, ih ha.2]

lemma isPrefixOf_append_self (l m : Str) : l.isPrefixOf (l ++ m) = true :=
  List.isPrefixOf_iff_prefix.mpr (List.prefix_append l m)

lemma isAbsHttpUrl_append (u v : Str) (h : isAbsHttpUrl u = true) :
    isAbsHttpUrl (u ++ v) = true := by
  unfold isAbsHttpUrl at h ⊢
  rw [Bool.or_eq_true] at h ⊢
  rw [List.isPrefixOf_iff_prefix, List.isPrefixOf_iff_prefix] at h ⊢
  rcases h with h | h
  · exact Or.inl (h.trans (List.prefix_append u v))
  · exact Or.inr (h.trans (List.prefix_append u v))

lemma isAbsHttpUrl_https (l : Str) :
    isAbsHttpUrl ([ 'h', 't', 't', 'p', 's', ':', '/', '/' ] ++ l) = true := by
  unfold isAbsHttpUrl
  rw [Bool.or_eq_true]
  exact Or.inr (isPrefixOf_append_self _ l)

lemma splitScheme_of_slash (raw : Str)
    (h : ([ '/' ] : Str).isPrefixOf raw = true) : splitScheme raw = none := by
  cases raw with
  | nil => simp [List.isPrefixOf] at h
  | cons c cs =>
    have hc : c = '/' := by
      simp [List.isPrefixOf] at h
      exact h.symm
    subst hc
    unfold splitScheme
    simp only [splitAtChar]
    rw [if_neg (by decide)]
    cases hsc : splitAtChar ':' cs with
    | none => simp
    | some pr => simp [Option.map]

/-- The base URLs of the amended C3: `https://` followed by a host and a
slash-initial path. -/
def httpsBase (host rest : Str) : Str :=
  'h' :: 't' :: 't' :: 'p' :: 's' :: ':' :: '/' :: '/' :: (host ++ '/' :: rest)

lemma urlsplit_httpsBase (host rest : Str)
    (hclean : host.all isNetlocChar = true) :
    (urlsplit (httpsBase host rest)).scheme = [ 'h', 't', 't', 'p', 's' ] ∧
    (urlsplit (httpsBase host rest)).netloc = host := by
  have h1 : splitScheme (httpsBase host rest) =
      some ([ 'h', 't', 't', 'p', 's' ], '/' :: '/' :: (host ++ '/' :: rest)) :=
    rfl
  have h2p : ([ '/', '/' ] : Str).isPrefixOf
      ('/' :: '/' :: (host ++ '/' :: rest)) = true :=
    isPrefixOf_append_self [ '/', '/' ] (host ++ '/' :: rest)
  have h3 : (host ++ '/' :: rest).takeWhile isNetlocChar = host :=
    takeWhile_clean_append _ _ _ _ hclean (by decide)
  constructor <;> simp [urlsplit, h1, h2p, h3]

lemma urlsplit_schemeless (raw : Str) (hs : splitScheme raw = none)
    (hnn : ([ '/', '/' ] : Str).isPrefixOf raw = false) :
    (urlsplit raw).scheme = [] ∧ (urlsplit raw).netloc = [] := by
  constructor <;> simp [urlsplit, hs, hnn]

lemma urlunsplit_abs (host p q f : Str) (hh : host ≠ []) :
    isAbsHttpUrl (urlunsplit ⟨[ 'h', 't', 't', 'p', 's' ], host, p, q, f⟩)
      = true := by
  have hcond : (decide (host ≠ []) ||
      ([ '/', '/' ] : Str).isPrefixOf p) = true := by
    rw [decide_eq_true hh]
    rfl
  unfold urlunsplit
  simp only [hcond, if_true]
  have hbase : ∀ z : Str,
      ([ 'h', 't', 't', 'p', 's' ] : Str) ++
          ':' :: ([ '/', '/' ] ++ host ++ z) =
        [ 'h', 't', 't', 'p', 's', ':', '/', '/' ] ++ (host ++ z) := by
    intro z
    simp
  by_cases hq : q = []
  · by_cases hf : f = []
    · simp only [hq, hf]
      simp only [if_neg (by decide : ¬(([] : Str) ≠ []))]
      rw [if_pos (by decide : ([ 'h', 't', 't', 'p', 's' ] : Str) ≠ [])]
      rw [hbase]
      exact isAbsHttpUrl_https _
    · simp only [hq]
      simp only [if_neg (by decide : ¬(([] : Str) ≠ []))]
      rw [if_pos (by decide : ([ 'h', 't', 't', 'p', 's' ] : Str) ≠ [])]
      rw [if_pos hf, hbase]
      exact isAbsHttpUrl_append _ _ (isAbsHttpUrl_https _)
  · by_cases hf : f = []
    · simp only [hf]
      simp only [if_neg (by decide : ¬(([] : Str) ≠ []))]
      rw [if_pos (by decide : ([ 'h', 't', 't', 'p', 's' ] : Str) ≠ [])]
      rw [if_pos hq, hbase]
      exact isAbsHttpUrl_append _ _ (isAbsHttpUrl_https _)
    · rw [if_pos (by decide : ([ 'h', 't', 't', 'p', 's' ] : Str) ≠ [])]
      rw [if_pos hq, if_pos hf, hbase]
      exact isAbsHttpUrl_append _ _
        (isAbsHttpUrl_append _ _ (isAbsHttpUrl_https _))

lemma urljoin_httpsBase_abs (host rest raw : Str) (hh : host ≠ [])
    (hclean : host.all isNetlocChar = true)
    (hs : splitScheme raw = none)
    (hnn : ([ '/', '/' ] : Str).isPrefixOf raw = false) :
    isAbsHttpUrl (urljoin (httpsBase host rest) raw) = true := by
  obtain ⟨hbs, hbn⟩ := urlsplit_httpsBase host rest hclean
  obtain ⟨hrs, hrn⟩ := urlsplit_schemeless raw hs hnn
  unfold urljoin
  rw [if_neg (by simp [httpsBase] : ¬httpsBase host rest = [])]
  by_cases hre : raw = []
  · rw [if_pos hre]
    exact isAbsHttpUrl_https (host ++ '/' :: rest)
  · rw [if_neg hre]
    simp only [hbs, hbn, hrs, hrn]
    by_cases hrp : (urlsplit raw).path = []
    · simp only [hrp]
      simp only [if_neg (by decide : ¬(([] : Str) ≠ []))]
      rw [if_neg (by simp)]
      simp only [if_true]
      exact urlunsplit_abs host _ _ _ hh
    · simp only [if_neg (by decide : ¬(([] : Str) ≠ []))]
      rw [if_neg (by simp)]
      rw [if_neg hrp]
      simp only [if_true]
      exact urlunsplit_abs host _ _ _ hh

/-- A raw source-attribute value that the normalization of
homework2.py:69-75 actually makes absolute: either it starts with `//` or
`/`, or it is already `http://`- or `https://`-qualified, or it neither
starts with `http` nor carries a URI scheme (so it is joined to the base
URL).  Excluded are exactly the values the code mishandles: strings
starting with `http` that are not scheme-qualified http(s) URLs, and
values with a non-http scheme such as `ftp:` or `data:`, which `urljoin`
returns unchanged. -/
def goodRaw (raw : Str) : Prop :=
  ([ 'h', 't', 't', 'p' ].isPrefixOf raw = true → isAbsHttpUrl raw = true) ∧
  ([ '/' ].isPrefixOf raw = false →
    [ 'h', 't', 't', 'p' ].isPrefixOf raw = false → splitScheme raw = none)

instance (raw : Str) : Decidable (goodRaw raw) := by
  unfold goodRaw
  infer_instance

lemma resolveUrl_abs (host rest raw : Str) (hh : host ≠ [])
    (hclean : host.all isNetlocChar = true) (hg : goodRaw raw) :
    isAbsHttpUrl (resolveUrl (httpsBase host rest) raw) = true := by
  unfold resolveUrl
  by_cases h1 : ([ '/', '/' ] : Str).isPrefixOf raw = true
  · rw [if_pos h1]
    obtain ⟨z, hz⟩ := List.isPrefixOf_iff_prefix.mp h1
    rw [← hz]
    exact isAbsHttpUrl_https z
  · have h1f : ([ '/', '/' ] : Str).isPrefixOf raw = false :=
      Bool.eq_false_iff.mpr h1
    rw [if_neg h1]
    by_cases h2 : ([ '/' ] : Str).isPrefixOf raw = true
    · rw [if_pos h2]
      exact urljoin_httpsBase_abs host rest raw hh hclean
        (splitScheme_of_slash raw h2) h1f
    · have h2f : ([ '/' ] : Str).isPrefixOf raw = false :=
        Bool.eq_false_iff.mpr h2
      rw [if_neg h2]
      by_cases h3 : ([ 'h', 't', 't', 'p' ] : Str).isPrefixOf raw = true
      · rw [if_neg (by simp [h3])]
        exact hg.1 h3
      · have h3f : ([ 'h', 't', 't', 'p' ] : Str).isPrefixOf raw = false :=
          Bool.eq_false_iff.mpr h3
        rw [if_pos (by simp [h3f])]
        exact urljoin_httpsBase_abs host rest raw hh hclean
          (hg.2 h2f h3f) h1f

lemma mem_processTag {base : Str} {acc : List ImageRec} {t : ImgTag}
    {r : ImageRec} (h : r ∈ processTag base acc t) :
    r ∈ acc ∨ ∃ raw, rawPick t = some raw ∧ hitsBlocklist raw = false ∧
      r.url = resolveUrl base raw := by
  unfold processTag at h
  cases hraw : rawPick t with
  | none => rw [hraw] at h; exact Or.inl h
  | some raw =>
    rw [hraw] at h
    dsimp only at h
    by_cases hb : hitsBlocklist raw = true
    · rw [if_pos hb] at h
      exact Or.inl h
    · rw [if_neg hb] at h
      simp only [List.mem_append, List.mem_singleton] at h
      rcases h with h | h
      · exact Or.inl h
      · exact Or.inr ⟨raw, rfl, Bool.eq_false_iff.mpr hb, by rw [h]⟩

lemma mem_foldl_processTag {base : Str} {r : ImageRec} :
    ∀ (tags : List ImgTag) (acc : List ImageRec),
      r ∈ tags.foldl (processTag base) acc →
      r ∈ acc ∨ ∃ t ∈ tags, ∃ raw, rawPick t = some raw ∧
        hitsBlocklist raw = false ∧ r.url = resolveUrl base raw := by
  intro tags
  induction tags with
  | nil => intro acc h; exact Or.inl h
  | cons t ts ih =>
    intro acc h
    rcases ih (processTag base acc t) h with h1 | ⟨t2, ht2, raw, h3⟩
    · rcases mem_processTag h1 with h2 | ⟨raw, h4⟩
      · exact Or.inl h2
      · exact Or.inr ⟨t, List.mem_cons_self t ts, raw, h4⟩
    · exact Or.inr ⟨t2, List.mem_cons_of_mem t ht2, raw, h3⟩

/-- Claim C3, amended: every record produced by `extract_image_urls` from
a base URL of the form `https://host/...` (non-empty host) has an
absolute, scheme-qualified http/https url, provided each element's
selected raw source value is one the normalization handles (`goodRaw`):
starting with `//` or `/`, already `http(s)://`-qualified, or scheme-less
and not starting with `http`.  Raw values starting with `http` that are
not scheme-qualified URLs pass through unresolved (see the
counterexample), and raw values with a non-http scheme (`ftp:`, `data:`)
are returned unchanged by `urljoin`. -/
theorem C3_absolute_urls (host rest : Str) (tags : List ImgTag)
    (hh : host ≠ []) (hclean : host.all isNetlocChar = true)
    (hgood : ∀ t ∈ tags, ∀ raw, rawPick t = some raw → goodRaw raw) :
    ∀ r ∈ extract_image_urls tags (httpsBase host rest),
      isAbsHttpUrl r.url = true := by
  intro r hr
  rcases mem_foldl_processTag tags [] hr with h | ⟨t, ht, raw, hraw, _, hurl⟩
  · simp at h
  · rw [hurl]
    exact resolveUrl_abs host rest raw hh hclean (hgood t ht raw hraw)

/-- Witness for the amended C3: on the page `https://x.y/p.html` with the
single element `<img src="a.jpg">`, the extracted record's url
`https://x.y/a.jpg` is absolute. -/
theorem C3_absolute_urls_witness :
    isAbsHttpUrl (ImageRec.url
      ⟨[ 'h', 't', 't', 'p', 's', ':', '/', '/', 'x', '.', 'y', '/',
          'a', '.', 'j', 'p', 'g' ],
        [ 'a', '.', 'j', 'p', 'g' ], [ 'a', '.', 'j', 'p', 'g' ]⟩) = true :=
  C3_absolute_urls [ 'x', '.', 'y' ] [ 'p', '.', 'h', 't', 'm', 'l' ]
    [⟨none, none, some [ 'a', '.', 'j', 'p', 'g' ], none, none, none⟩]
    (by decide) (by decide) (by decide)
    ⟨[ 'h', 't', 't', 'p', 's', ':', '/', '/', 'x', '.', 'y', '/',
        'a', '.', 'j', 'p', 'g' ],
      [ 'a', '.', 'j', 'p', 'g' ], [ 'a', '.', 'j', 'p', 'g' ]⟩
    (by decide)

/-! ### The crawl orchestrator

`crawl_images` (homework2.py:134-168) iterates `page_num` over
`range(1, max_pages + 1)`.  Each iteration fetches the page (a fetch
attempt, modelled as a trace event), and on success extracts records,
merges them into the global list under the `seen_urls` set, and sleeps
one second; a failed (falsy) fetch result hits `continue`, which skips
both the merge and the sleep.  The network is an oracle mapping a page
number to an optional parsed document. -/

/-- `BASE_URL.format(page_num)` (homework2.py:12, 142). -/
def baseUrlFor (n : Nat) : Str :=
  [ 'h', 't', 't', 'p', 's', ':', '/', '/', 'w', 'w', 'w', '.',
    's', 'u', 'c', 'a', 'i', '9', '9', '9', '.', 'c', 'o', 'm',
    '/', 'p', 'i', 'c', '/', 'c', 'a', 't', 'e', '/',
    '2', '6', '5', '_', '3', '2', '4', '-' ] ++ natStr n ++
  [ '.', 'h', 't', 'm', 'l' ]

/-- Observable events of one crawl run: a page-fetch attempt for a page
number, and the one-second inter-page pause. -/
inductive CEvent where
  | fetch (n : Nat)
  | sleep
deriving DecidableEq

/-- The mutable state of `crawl_images`: `all_image_data`, `seen_urls`
(a set of url strings, modelled as the list of its insertions), and the
event trace. -/
structure CrawlSt where
  acc : List ImageRec
  seen : List Str
  trace : List CEvent
deriving DecidableEq

/-- The per-page merge loop (homework2.py:153-161): append a record only
when its url is not in the seen set, inserting the url on acceptance. -/
def dedupMerge : List ImageRec → List Str → List ImageRec →
    List ImageRec × List Str
  | acc, seen, [] => (acc, seen)
  | acc, seen, r :: rs =>
    if r.url ∈ seen then dedupMerge acc seen rs
    else dedupMerge (acc ++ [r]) (r.url :: seen) rs

/-- One iteration of the page loop (homework2.py:141-165): fetch, then on
failure `continue` (no merge, no sleep); on success extract against the
page URL, merge, and sleep. -/
def crawlStep (fetchPage : Nat → Option (List ImgTag)) (st : CrawlSt)
    (n : Nat) : CrawlSt :=
  match fetchPage n with
  | none => ⟨st.acc, st.seen, st.trace ++ [CEvent.fetch n]⟩
  | some doc =>
    let ms := dedupMerge st.acc st.seen (extract_image_urls doc (baseUrlFor n))
    ⟨ms.1, ms.2, st.trace ++ [CEvent.fetch n, CEvent.sleep]⟩

/-- Embedding of `crawl_images` (homework2.py:134-168).  `max_pages` is a
Python integer; `range(1, max_pages + 1)` is empty when it is not
positive.  The fold is structurally recursive, so every run terminates. -/
def crawl_images (fetchPage : Nat → Option (List ImgTag))
    (max_pages : Int) : CrawlSt :=
  (List.range' 1 max_pages.toNat).foldl (crawlStep fetchPage) ⟨[], [], []⟩

/-- The records one page contributes before global dedup: none on fetch
failure, the extraction result on success. -/
def pageRecs (fetchPage : Nat → Option (List ImgTag)) (n : Nat) :
    List ImageRec :=
  match fetchPage n with
  | none => []
  | some doc => extract_image_urls doc (baseUrlFor n)

/-- All records extracted over a run, in page order, before dedup. -/
def allExtracted (fetchPage : Nat → Option (List ImgTag)) (m : Int) :
    List ImageRec :=
  (List.range' 1 m.toNat).flatMap (pageRecs fetchPage)

/-- Keep the first record for each url not already in `seen`: the
canonical first-seen-order deduplication. -/
def firstDedup (seen : List Str) : List ImageRec → List ImageRec
  | [] => []
  | r :: rs =>
    if r.url ∈ seen then firstDedup seen rs
    else r :: firstDedup (r.url :: seen) rs

/-- The seen set after scanning a record list. -/
def seenAfter (seen : List Str) : List ImageRec → List Str
  | [] => seen
  | r :: rs =>
    if r.url ∈ seen then seenAfter seen rs
    else seenAfter (r.url :: seen) rs

/-- The trace events one page iteration appends. -/
def pageTrace (fetchPage : Nat → Option (List ImgTag)) (n : Nat) :
    List CEvent :=
  match fetchPage n with
  | none => [CEvent.fetch n]
  | some _ => [CEvent.fetch n, CEvent.sleep]

/-- The sequence of attempted page numbers, read off the trace. -/
def fetchLog (st : CrawlSt) : List Nat :=
  st.trace.filterMap (fun e =>
    match e with
    | CEvent.fetch n => some n
    | CEvent.sleep => none)

/-- The number of inter-page pauses in a run. -/
def sleepCount (st : CrawlSt) : Nat :=
  (st.trace.filter (fun e => e = CEvent.sleep)).length

lemma dedupMerge_eq (rs : List ImageRec) : ∀ (acc : List ImageRec)
    (seen : List Str),
    dedupMerge acc seen rs = (acc ++ firstDedup seen rs, seenAfter seen rs) := by
  induction rs with
  | nil => intro acc seen; simp [dedupMerge, firstDedup, seenAfter]
  | cons r rs ih =>
    intro acc seen
    by_cases h : r.url ∈ seen
    · simp [dedupMerge, firstDedup, seenAfter, h, ih]
    · simp [dedupMerge, firstDedup, seenAfter, h, ih]

lemma firstDedup_append (xs : List ImageRec) : ∀ (ys : List ImageRec)
    (seen : List Str),
    firstDedup seen (xs ++ ys) =
      firstDedup seen xs ++ firstDedup (seenAfter seen xs) ys := by
  induction xs with
  | nil => intro ys seen; simp [firstDedup, seenAfter]
  | cons r rs ih =>
    intro ys seen
    by_cases h : r.url ∈ seen
    · simp [firstDedup, seenAfter, h, ih]
    · simp [firstDedup, seenAfter, h, ih]

lemma seenAfter_append (xs : List ImageRec) : ∀ (ys : List ImageRec)
    (seen : List Str),
    seenAfter seen (xs ++ ys) = seenAfter (seenAfter seen xs) ys := by
  induction xs with
  | nil => intro ys seen; simp [seenAfter]
  | cons r rs ih =>
    intro ys seen
    by_cases h : r.url ∈ seen
    · simp [seenAfter, h, ih]
    · simp [seenAfter, h, ih]

/-- Characterization of the crawl fold: the accumulated records are the
first-seen dedup of everything extracted, the seen set evolves
accordingly, and the trace is the concatenation of the per-page traces. -/
lemma crawl_fold_char (fetchPage : Nat → Option (List ImgTag))
    (l : List Nat) : ∀ (st : CrawlSt),
    (l.foldl (crawlStep fetchPage) st).acc =
        st.acc ++ firstDedup st.seen (l.flatMap (pageRecs fetchPage)) ∧
    (l.foldl (crawlStep fetchPage) st).seen =
        seenAfter st.seen (l.flatMap (pageRecs fetchPage)) ∧
    (l.foldl (crawlStep fetchPage) st).trace =
        st.trace ++ l.flatMap (pageTrace fetchPage) := by
  induction l with
  | nil => intro st; simp [firstDedup, seenAfter]
  | cons n ns ih =>
    intro st
    rw [List.foldl_cons, List.flatMap_cons, List.flatMap_cons]
    obtain ⟨ih1, ih2, ih3⟩ := ih (crawlStep fetchPage st n)
    cases hf : fetchPage n with
    | none =>
      have hstep : crawlStep fetchPage st n =
          ⟨st.acc, st.seen, st.trace ++ [CEvent.fetch n]⟩ := by
        simp [crawlStep, hf]
      rw [hstep] at ih1 ih2 ih3 ⊢
      refine ⟨?_, ?_, ?_⟩
      · rw [ih1]; simp [pageRecs, hf]
      · rw [ih2]; simp [pageRecs, hf]
      · rw [ih3]; simp [pageTrace, hf]
    | some doc =>
      have hstep : crawlStep fetchPage st n =
          ⟨st.acc ++ firstDedup st.seen
              (extract_image_urls doc (baseUrlFor n)),
            seenAfter st.seen (extract_image_urls doc (baseUrlFor n)),
            st.trace ++ [CEvent.fetch n, CEvent.sleep]⟩ := by
        simp [crawlStep, hf, dedupMerge_eq]
      rw [hstep] at ih1 ih2 ih3 ⊢
      refine ⟨?_, ?_, ?_⟩
      · rw [ih1]
        simp [pageRecs, hf, firstDedup_append, List.append_assoc]
      · rw [ih2]
        simp [pageRecs, hf, seenAfter_append]
      · rw [ih3]
        simp [pageTrace, hf]

lemma firstDedup_nodup : ∀ (l : List ImageRec) (seen : List Str),
    ((firstDedup seen l).map ImageRec.url).Nodup ∧
    (∀ u ∈ (firstDedup seen l).map ImageRec.url, u ∉ seen) := by
  intro l
  induction l with
  | nil => intro seen; simp [firstDedup]
  | cons r rs ih =>
    intro seen
    by_cases h : r.url ∈ seen
    · rw [firstDedup, if_pos h]
      exact ih seen
    · rw [firstDedup, if_neg h]
      obtain ⟨ih1, ih2⟩ := ih (r.url :: seen)
      refine ⟨?_, ?_⟩
      · rw [List.map_cons, List.nodup_cons]
        refine ⟨fun hmem => ?_, ih1⟩
        exact (ih2 r.url hmem) (List.mem_cons_self _ _)
      · intro u hu
        rw [List.map_cons, List.mem_cons] at hu
        rcases hu with hu | hu
        · rw [hu]; exact h
        · intro hseen
          exact (ih2 u hu) (List.mem_cons_of_mem _ hseen)

/-- Claim C1: the sequence `crawl_images` returns is exactly the
first-seen-order deduplication (`firstDedup` starting from the empty seen
set) of all records extracted across the run, and in particular no two
returned records share a url.  A record is appended only when its url is
not yet in the seen set, and the url is inserted on acceptance. -/
theorem C1_global_dedup (fetchPage : Nat → Option (List ImgTag))
    (m : Int) :
    (crawl_images fetchPage m).acc =
        firstDedup [] (allExtracted fetchPage m) ∧
    ((crawl_images fetchPage m).acc.map ImageRec.url).Nodup := by
  have h := (crawl_fold_char fetchPage (List.range' 1 m.toNat) ⟨[], [], []⟩).1
  constructor
  · rw [crawl_images, h]
    rfl
  · rw [crawl_images, h]
    simpa using (firstDedup_nodup ((List.range' 1 m.toNat).flatMap
      (pageRecs fetchPage)) []).1

lemma fetchLog_flat (fetchPage : Nat → Option (List ImgTag)) :
    ∀ l : List Nat,
      (l.flatMap (pageTrace fetchPage)).filterMap (fun e =>
        match e with
        | CEvent.fetch n => some n
        | CEvent.sleep => none) = l := by
  intro l
  induction l with
  | nil => rfl
  | cons n ns ih =>
    rw [List.flatMap_cons, List.filterMap_append, ih]
    cases hf : fetchPage n <;> simp [pageTrace, hf]

/-- Claim C5: a run with a positive page bound `N` performs exactly `N`
page-fetch attempts, one per page index `1, …, N` in increasing order,
whatever the per-page fetch outcomes are; the fold over `range' 1 N` is
structurally recursive, so the run always terminates. -/
theorem C5_pagination (fetchPage : Nat → Option (List ImgTag)) (N : Nat)
    (hN : 0 < N) :
    fetchLog (crawl_images fetchPage ((N : Nat) : Int)) =
      List.range' 1 N := by
  have h := (crawl_fold_char fetchPage
    (List.range' 1 ((N : Nat) : Int).toNat) ⟨[], [], []⟩).2.2
  unfold fetchLog crawl_images
  rw [h, List.nil_append, Int.toNat_natCast]
  exact fetchLog_flat fetchPage (List.range' 1 N)

/-- Witness for C5: three failing pages still give fetch attempts
`[1, 2, 3]`. -/
theorem C5_pagination_witness :
    fetchLog (crawl_images (fun _ => none) ((3 : Nat) : Int)) =
      List.range' 1 3 :=
  C5_pagination (fun _ => none) 3 (by decide)

/-- Claim C7, counterexample: with `max_pages = 1` and a failing fetch,
the run performs no pause at all, not the one pause per page the claim
requires: the `continue` taken on a falsy fetch result skips the
`time.sleep(1)` at the bottom of the loop body. -/
theorem C7_counterexample :
    ¬ sleepCount (crawl_images (fun _ => none) 1) = 1 := by decide

lemma sleepCount_flat (fetchPage : Nat → Option (List ImgTag)) :
    ∀ l : List Nat,
      ((l.flatMap (pageTrace fetchPage)).filter
          (fun e => e = CEvent.sleep)).length =
        (l.filter (fun n => (fetchPage n).isSome)).length := by
  intro l
  induction l with
  | nil => rfl
  | cons n ns ih =>
    rw [List.flatMap_cons, List.filter_append, List.length_append, ih]
    cases hf : fetchPage n <;>
      simp [pageTrace, hf, List.filter_cons, Nat.add_comm]

/-- Claim C7, amended: the one-second inter-page pause runs only after
successfully fetched pages — the `continue` on a failed fetch skips it —
so the number of pauses equals the number of page indices whose fetch
succeeded, not the page bound. -/
theorem C7_sleep_after_success (fetchPage : Nat → Option (List ImgTag))
    (m : Int) :
    sleepCount (crawl_images fetchPage m) =
      ((List.range' 1 m.toNat).filter
        (fun n => (fetchPage n).isSome)).length := by
  have h := (crawl_fold_char fetchPage (List.range' 1 m.toNat)
    ⟨[], [], []⟩).2.2
  unfold sleepCount crawl_images
  rw [h, List.nil_append]
  exact sleepCount_flat fetchPage (List.range' 1 m.toNat)

/-- Claim C9: for a non-positive page bound, `range(1, max_pages + 1)` is
empty, so the crawl returns the empty record sequence and performs no
fetch attempt (and indeed no event at all). -/
theorem C9_nonpositive (fetchPage : Nat → Option (List ImgTag))
    (m : Int) (hm : m ≤ 0) :
    (crawl_images fetchPage m).acc = [] ∧
    (crawl_images fetchPage m).trace = [] := by
  unfold crawl_images
  rw [Int.toNat_of_nonpos hm]
  exact ⟨rfl, rfl⟩

/-- Witness for C9: `max_pages = -2` yields no records and no events. -/
theorem C9_nonpositive_witness :
    (crawl_images (fun _ => none) (-2)).acc = [] ∧
    (crawl_images (fun _ => none) (-2)).trace = [] :=
  C9_nonpositive (fun _ => none) (-2) (by decide)

/-! ### The downloader

`download_image` (homework2.py:106-122) wraps its whole body in
`try/except`: the streamed GET (which raises on network failure),
`raise_for_status` (which raises on a non-success status), `os.makedirs`,
`open`, and each chunk write can raise; every exception is caught, logged
and turned into `False`.  The outside world is an outcome record: the
optional response (with its status and chunk stream) and the success of
each filesystem step.  The embedding is a total function into `Bool`, so
no exception escapes to the caller by construction. -/

/-- A response to the streamed GET: whether `raise_for_status` passes, and
the chunk stream `iter_content` yields. -/
structure DlResponse where
  statusOk : Bool
  chunks : List Str

/-- One download attempt's environment: `resp = none` models the GET
itself raising; `mkdirsOk` and `openOk` the directory creation and file
open; `writeOk k` the success of the `k`-th performed chunk write. -/
structure DlOutcome where
  resp : Option DlResponse
  mkdirsOk : Bool
  openOk : Bool
  writeOk : Nat → Bool

/-- The chunk-writing loop (homework2.py:115-117): empty chunks are
skipped (`if chunk:`), each performed write may raise. -/
def writeChunks (ok : Nat → Bool) : Nat → List Str → Except Unit Unit
  | _, [] => Except.ok ()
  | i, c :: cs =>
    if c = [] then writeChunks ok i cs
    else if ok i then writeChunks ok (i + 1) cs
    else Except.error ()

/-- Embedding of `download_image` (homework2.py:106-122). -/
def download_image (o : DlOutcome) : Bool :=
  let body : Except Unit Unit :=
    match o.resp with
    | none => Except.error ()
    | some r =>
      if !r.statusOk then Except.error ()
      else if !o.mkdirsOk then Except.error ()
      else if !o.openOk then Except.error ()
      else writeChunks o.writeOk 0 r.chunks
  match body with
  | Except.ok _ => true
  | Except.error _ => false

/-- A download environment with no error anywhere: response obtained,
success status, filesystem steps fine, and every write of the payload
(the non-empty chunks) succeeding. -/
def noDlError (o : DlOutcome) : Bool :=
  match o.resp with
  | none => false
  | some r =>
    r.statusOk && o.mkdirsOk && o.openOk &&
      (List.range (r.chunks.filter (fun c => c ≠ [])).length).all o.writeOk

lemma writeChunks_ok_iff (ok : Nat → Bool) :
    ∀ (cs : List Str) (i : Nat),
      writeChunks ok i cs = Except.ok () ↔
        ∀ j < (cs.filter (fun c => c ≠ [])).length, ok (i + j) = true := by
  intro cs
  induction cs with
  | nil => intro i; simp [writeChunks]
  | cons c cs ih =>
    intro i
    by_cases hc : c = []
    · rw [writeChunks, if_pos hc, ih i]
      subst hc
      simp [List.filter_cons]
    · rw [writeChunks, if_neg hc]
      have hfilter : List.filter (fun x => decide (x ≠ [])) (c :: cs) =
          c :: List.filter (fun x => decide (x ≠ [])) cs := by
        simp [List.filter_cons, hc]
      rw [hfilter, List.length_cons]
      by_cases hok : ok i = true
      · rw [if_pos hok, ih (i + 1)]
        constructor
        · intro h j hj
          cases j with
          | zero => simpa using hok
          | succ j2 =>
            have h2 := h j2 (Nat.lt_of_succ_lt_succ hj)
            have hidx : i + (j2 + 1) = i + 1 + j2 := by omega
            rw [hidx]
            exact h2
        · intro h j hj
          have h2 := h (j + 1) (Nat.succ_lt_succ hj)
          have hidx : i + 1 + j = i + (j + 1) := by omega
          rw [hidx]
          exact h2
      · rw [if_neg hok]
        constructor
        · intro h
          exact absurd h (by simp)
        · intro h
          exact absurd (by simpa using h 0 (Nat.succ_pos _)) hok

/-- Claim C8: `download_image` is a total boolean function of its
environment (no exception reaches the caller), and it returns `true`
exactly when nothing failed: the request succeeded, the status was a
success, directory creation and file open succeeded, and every chunk of
the payload was written.  Contrapositively it returns `false` on any
network, status or filesystem error, and returns `true` only once the
whole payload has been written to the destination. -/
theorem C8_download_contract (o : DlOutcome) :
    download_image o = true ↔ noDlError o = true := by
  unfold download_image noDlError
  cases hr : o.resp with
  | none => simp
  | some r =>
    by_cases hs : r.statusOk = true
    · by_cases hm : o.mkdirsOk = true
      · by_cases ho : o.openOk = true
        · simp only [hs, hm, ho, Bool.not_true, Bool.false_eq_true,
            if_false, Bool.true_and]
          cases hw : writeChunks o.writeOk 0 r.chunks with
          | ok u =>
            simp only [hw]
            constructor
            · intro _
              simp only [List.all_eq_true]
              intro j hj
              rw [List.mem_range] at hj
              have h2 := (writeChunks_ok_iff o.writeOk r.chunks 0).mp
                (by rw [hw]) j hj
              simpa using h2
            · intro _
              simp
          | error u =>
            simp only [hw]
            constructor
            · intro h
              exact absurd h (by simp)
            · intro h
              have h2 : writeChunks o.writeOk 0 r.chunks = Except.ok () := by
                rw [writeChunks_ok_iff]
                intro j hj
                simp only [List.all_eq_true] at h
                simpa using h j (List.mem_range.mpr hj)
              rw [hw] at h2
              exact absurd h2 (by simp)
        · simp [hs, hm, ho]
      · simp [hs, hm]
    · simp [hs]

/-- Witness for C8: the contract instantiated on an all-success
environment (a one-chunk payload) and on a failed-request environment. -/
theorem C8_download_contract_witness :
    download_image ⟨some ⟨true, [ [ 'a' ], [] ]⟩, true, true,
        fun _ => true⟩ = true ∧
    download_image ⟨none, true, true, fun _ => true⟩ = false :=
  ⟨(C8_download_contract
      ⟨some ⟨true, [ [ 'a' ], [] ]⟩, true, true, fun _ => true⟩).mpr
      (by decide),
    Bool.eq_false_iff.mpr (fun hT => absurd
      ((C8_download_contract ⟨none, true, true, fun _ => true⟩).mp hT)
      (by decide))⟩

/-! ### Saving the manifest and driving downloads

`save_images` (homework2.py:171-207) creates the output directory, writes
the JSON manifest, and — only when `download` is true — walks the records
with `enumerate(..., start=1)`, builds each destination path from the
sanitized filename, invokes `download_image`, and sleeps half a second
after each attempt.  Its observable behaviour is the sequence of side
effects, modelled as an event trace; download results are an oracle from
url and destination path to a boolean. -/

/-- Side effects of `save_images`, in order. -/
inductive SEvent where
  | mkRootDir
  | writeManifest (records : List ImageRec)
  | download (url : Str) (dest : Str) (ok : Bool)
  | sleepHalf
deriving DecidableEq

/-- `SAVE_DIR` (homework2.py:13). -/
def saveDir : Str :=
  [ 'd', 'o', 'w', 'n', 'l', 'o', 'a', 'd', 'e', 'd', '_',
    'i', 'm', 'a', 'g', 'e', 's' ]

/-- The recognized image extensions test (homework2.py:194):
`filename.lower().endswith(('.jpg', '.jpeg', '.png', '.gif', '.webp'))`.
The lower-casing is implicit in the code's use of `filename.lower()`. -/
def hasImageExt (f : Str) : Bool :=
  [ [ '.', 'j', 'p', 'g' ], [ '.', 'j', 'p', 'e', 'g' ],
    [ '.', 'p', 'n', 'g' ], [ '.', 'g', 'i', 'f' ],
    [ '.', 'w', 'e', 'b', 'p' ] ].any
    (fun ext => ext.isSuffixOf (lowerStr f))

/-- Python `f"{idx:04d}"` for a non-negative index. -/
def pad4 (n : Nat) : Str :=
  List.replicate (4 - (natStr n).length) '0' ++ natStr n

/-- The destination path of record `r` at 1-based position `idx`
(homework2.py:191-197): sanitize the filename, append `.jpg` unless a
recognized extension is present, and join
`SAVE_DIR/{idx:04d}_{filename}`. -/
def savePathFor (idx : Nat) (r : ImageRec) : Str :=
  let fn0 := sanitize_filename r.filename
  let fn := if hasImageExt fn0 then fn0 else fn0 ++ [ '.', 'j', 'p', 'g' ]
  saveDir ++ '/' :: (pad4 idx ++ '_' :: fn)

/-- Embedding of `save_images` (homework2.py:171-207) as its event trace:
directory creation, manifest write, then — only in download mode — one
download attempt and one half-second pause per record, in manifest
order. -/
def save_images (dl : Str → Str → Bool) (image_data_list : List ImageRec)
    (download : Bool) : List SEvent :=
  let pre := [SEvent.mkRootDir, SEvent.writeManifest image_data_list]
  if download = false then pre
  else
    pre ++ (List.enumFrom 1 image_data_list).flatMap (fun p =>
      [SEvent.download p.2.url (savePathFor p.1 p.2)
          (dl p.2.url (savePathFor p.1 p.2)),
        SEvent.sleepHalf])

/-- Claim C10: with `download = False`, `save_images` creates the output
directory, writes the manifest, and stops: no download attempt, no image
file, no per-download pause.  And in every call — either mode — the
manifest write precedes any download event. -/
theorem C10_manifest_first (dl : Str → Str → Bool)
    (records : List ImageRec) :
    (save_images dl records false =
        [SEvent.mkRootDir, SEvent.writeManifest records]) ∧
    (∀ d : Bool, ∃ t : List SEvent, save_images dl records d =
        SEvent.mkRootDir :: SEvent.writeManifest records :: t) := by
  refine ⟨rfl, ?_⟩
  intro d
  cases d with
  | false => exact ⟨[], rfl⟩
  | true =>
    exact ⟨(List.enumFrom 1 records).flatMap (fun p =>
      [SEvent.download p.2.url (savePathFor p.1 p.2)
          (dl p.2.url (savePathFor p.1 p.2)),
        SEvent.sleepHalf]), rfl⟩

end Homework2
